import Mathlib

/-!
Verification of the Atlantis frontend orchestration code.

Shallow embedding of the pin-accumulation merge (App.tsx), the viewport
quantization and query-key derivation (hooks/useEvents.ts), the SSE stream
consumer (hooks/useSSE.ts), the sentence-stream buffer
(hooks/useSentenceStream.ts), the geocoding utility (utils/geocoding.ts),
the pin color scale (components/WorldMap.tsx) and the date-range picker
change handler (components/DatePicker.tsx).

Numbers that the TypeScript source manipulates as IEEE doubles are modelled
as rationals; JavaScript `Math.round` (round half toward positive infinity)
is modelled as `fun q => Int.floor (q + 1/2)`.
-/

namespace Atlantis

/-! ## Data model (src/frontend/src/types/events.ts) -/

/-- Event category of a pin, from the `EventCategory` union type. -/
inductive EventCategory where
  | politics | conflict | culture | science | economics | other
  deriving DecidableEq, Repr

/-- A located event pin, from the `Pin` interface. -/
structure Pin where
  event_id : String
  title : String
  date : String
  lat : ℚ
  lng : ℚ
  location_label : String
  category : EventCategory
  significance_score : ℚ
  one_liner : String
  confidence : ℚ
  positivity_scale : ℚ
  related_event_ids : Option (List String)
  deriving DecidableEq, Repr

/-! ## Pin accumulation merge (App.tsx, AppContent, lines 157-173)

The effect reads `setAccumulatedPins((prev) => { const existingIds = new
Set(prev.map((p) => p.event_id)); const newPins = pinsData.pins.filter((p)
=> !existingIds.has(p.event_id)); return [...prev, ...newPins]; })`.
A second effect resets the accumulated list to `[]` when the date range or
the language changes. -/

/-- Merge of one fetched pin batch into the accumulated list, exactly the
updater function passed to `setAccumulatedPins` in App.tsx. -/
def mergePins (prev fetched : List Pin) : List Pin :=
  prev ++ fetched.filter (fun p => !(prev.map Pin.event_id).contains p.event_id)

/-- One state transition of the accumulated pin list: either a merge of a
fetched batch (the first effect) or a reset to the empty list (the effect
that runs when the date range or language changes). -/
inductive PinOp where
  | merge (fetched : List Pin)
  | reset
  deriving Repr

/-- Apply one operation to the accumulated pin list. -/
def applyPinOp (s : List Pin) : PinOp → List Pin
  | .merge fetched => mergePins s fetched
  | .reset => []

/-- Run a sequence of merge and reset operations starting from the initial
state `useState<Pin[]>([])`. -/
def runPinOps (ops : List PinOp) : List Pin :=
  ops.foldl applyPinOp []

/-- A concrete pin used in counterexamples. -/
def examplePin : Pin :=
  { event_id := "E1", title := "t", date := "2024-01-01", lat := 0, lng := 0,
    location_label := "l", category := .other, significance_score := 0,
    one_liner := "o", confidence := 0, positivity_scale := 0,
    related_event_ids := none }

lemma mergePins_nodup_ids (prev fetched : List Pin)
    (h1 : (prev.map Pin.event_id).Nodup) (h2 : (fetched.map Pin.event_id).Nodup) :
    ((mergePins prev fetched).map Pin.event_id).Nodup := by
  unfold mergePins
  rw [List.map_append, List.nodup_append]
  refine ⟨h1, ?_, ?_⟩
  · exact ((List.filter_sublist fetched).map Pin.event_id).nodup h2
  · intro e he1 he2
    rw [List.mem_map] at he2
    obtain ⟨p, hp, rfl⟩ := he2
    rw [List.mem_filter] at hp
    have hni : p.event_id ∉ prev.map Pin.event_id := by simpa using hp.2
    exact hni he1

/-- C1 (amended): provided the accumulated list and the fetched batch each
have pairwise distinct event ids, the merge keeps every accumulated pin
unchanged in place, appends exactly the fetched pins with fresh event ids
in their arrival order, and the result lists each event id of either input
exactly once. -/
theorem mergePins_spec (prev fetched : List Pin)
    (h1 : (prev.map Pin.event_id).Nodup) (h2 : (fetched.map Pin.event_id).Nodup) :
    ((mergePins prev fetched).map Pin.event_id).Nodup ∧
    (mergePins prev fetched).take prev.length = prev ∧
    (mergePins prev fetched).drop prev.length
      = fetched.filter (fun p => !(prev.map Pin.event_id).contains p.event_id) ∧
    (∀ e, e ∈ (mergePins prev fetched).map Pin.event_id ↔
      (e ∈ prev.map Pin.event_id ∨ e ∈ fetched.map Pin.event_id)) := by
  refine ⟨mergePins_nodup_ids prev fetched h1 h2, ?_, ?_, ?_⟩
  · unfold mergePins
    rw [List.take_left]
  · unfold mergePins
    rw [List.drop_left]
  · intro e
    unfold mergePins
    rw [List.map_append, List.mem_append]
    constructor
    · rintro (h | h)
      · exact Or.inl h
      · rw [List.mem_map] at h
        obtain ⟨p, hp, rfl⟩ := h
        exact Or.inr (List.mem_map_of_mem Pin.event_id (List.mem_of_mem_filter hp))
    · rintro (h | h)
      · exact Or.inl h
      · rw [List.mem_map] at h
        obtain ⟨p, hp, rfl⟩ := h
        by_cases hmem : p.event_id ∈ prev.map Pin.event_id
        · exact Or.inl hmem
        · refine Or.inr (List.mem_map_of_mem Pin.event_id ?_)
          rw [List.mem_filter]
          refine ⟨hp, ?_⟩
          simpa using hmem

/-- C1 witness: the merge theorem applied to a concrete overlapping pair of
batches. -/
theorem mergePins_spec_witness :
    ((mergePins [examplePin] [examplePin]).map Pin.event_id).Nodup ∧
    (mergePins [examplePin] [examplePin]).take 1 = [examplePin] := by
  have h := mergePins_spec [examplePin] [examplePin] (by decide) (by decide)
  exact ⟨h.1, h.2.1⟩

/-- C1 counterexample: a fetched batch that repeats an event id internally is
appended with the repetition intact, so the claimed "each event_id occurs
exactly once in the result" fails for this input. -/
theorem mergePins_counterexample :
    (mergePins [] [examplePin, examplePin]).map Pin.event_id = ["E1", "E1"] ∧
    ¬ ((mergePins [] [examplePin, examplePin]).map Pin.event_id).Nodup := by
  decide

/-- C2 (amended): provided every fetched batch in the operation sequence has
pairwise distinct event ids, the accumulated pin list reached from the empty
initial state by any sequence of merges and resets has pairwise distinct
event ids. -/
theorem runPinOps_nodup (ops : List PinOp)
    (h : ∀ fetched, PinOp.merge fetched ∈ ops → (fetched.map Pin.event_id).Nodup) :
    ((runPinOps ops).map Pin.event_id).Nodup := by
  suffices H : ∀ (start : List Pin), ((start.map Pin.event_id).Nodup) →
      (∀ fetched, PinOp.merge fetched ∈ ops → (fetched.map Pin.event_id).Nodup) →
      ((ops.foldl applyPinOp start).map Pin.event_id).Nodup by
    exact H [] (by simp) h
  clear h
  induction ops with
  | nil => intro start hs _; simpa using hs
  | cons op rest ih =>
    intro start hs h
    rw [List.foldl_cons]
    cases op with
    | merge fetched =>
      exact ih (mergePins start fetched)
        (mergePins_nodup_ids start fetched hs (h fetched (by simp)))
        (fun f hf => h f (List.mem_cons_of_mem _ hf))
    | reset =>
      exact ih [] (by simp) (fun f hf => h f (List.mem_cons_of_mem _ hf))

/-- C2 witness: the invariant theorem applied to a concrete sequence of
merges and resets with duplicate-free batches. -/
theorem runPinOps_nodup_witness :
    ((runPinOps [PinOp.merge [examplePin], PinOp.reset,
        PinOp.merge [examplePin]]).map Pin.event_id).Nodup := by
  refine runPinOps_nodup _ ?_
  intro fetched hmem
  simp only [List.mem_cons, List.not_mem_nil, or_false] at hmem
  rcases hmem with h | h | h <;> cases h <;> decide

/-- C2 counterexample: a single merge of a batch that repeats an event id
drives the accumulated list into a state with a duplicated event id, so the
claimed unconditional invariant fails. -/
theorem runPinOps_counterexample :
    (runPinOps [PinOp.merge [examplePin, examplePin]]).map Pin.event_id = ["E1", "E1"] ∧
    ¬ ((runPinOps [PinOp.merge [examplePin, examplePin]]).map Pin.event_id).Nodup := by
  decide

/-! ## Viewport quantization and query key (hooks/useEvents.ts)

`normalizeViewport` rounds each bounding-box coordinate with
`Math.round(x * 100) / 100` and the zoom with `Math.round(z * 10) / 10`;
`usePins` builds the React Query key
`["pins", date, west, south, east, north, zoom, language, maxPins]` from the
normalized values. -/

/-- JavaScript `Math.round`: round half toward positive infinity. -/
def jsRound (q : ℚ) : ℤ := ⌊q + 1/2⌋

/-- `Math.round(x * 100) / 100`: round to two decimal places. -/
def round2 (q : ℚ) : ℚ := (jsRound (q * 100) : ℚ) / 100

/-- `Math.round(x * 10) / 10`: round to one decimal place. -/
def round1 (q : ℚ) : ℚ := (jsRound (q * 10) : ℚ) / 10

/-- A map viewport: bounding box plus zoom, from the `Viewport` interface
(bbox flattened). -/
structure Viewport where
  west : ℚ
  south : ℚ
  east : ℚ
  north : ℚ
  zoom : ℚ
  deriving DecidableEq, Repr

/-- The `normalizeViewport` helper of `usePins`. -/
def normalizeViewport (vp : Viewport) : Viewport :=
  { west := round2 vp.west, south := round2 vp.south, east := round2 vp.east,
    north := round2 vp.north, zoom := round1 vp.zoom }

/-- The React Query key `["pins", date, west, south, east, north, zoom,
language, maxPins]` built by `usePins` from the normalized viewport. -/
structure PinsQueryKey where
  kind : String
  date : String
  west : ℚ
  south : ℚ
  east : ℚ
  north : ℚ
  zoom : ℚ
  language : String
  maxPins : ℕ
  deriving DecidableEq, Repr

/-- Query-key derivation of `usePins`. -/
def pinsQueryKey (date : String) (vp : Viewport) (language : String)
    (maxPins : ℕ) : PinsQueryKey :=
  let nv := normalizeViewport vp
  { kind := "pins", date := date, west := nv.west, south := nv.south,
    east := nv.east, north := nv.north, zoom := nv.zoom,
    language := language, maxPins := maxPins }

/-- A viewport with west edge 0.0049 degrees. -/
def vpNearA : Viewport := { west := 49/10000, south := 0, east := 1, north := 1, zoom := 2 }

/-- A viewport with west edge 0.0051 degrees, within 0.001 degrees of
`vpNearA` on every coordinate. -/
def vpNearB : Viewport := { west := 51/10000, south := 0, east := 1, north := 1, zoom := 2 }

/-- C3 counterexample: the two viewports differ by 0.0002 degrees on the west
edge only (far below the stated 0.001-degree precision) and have equal zoom,
yet they round to different hundredths and so derive different query keys. -/
theorem quantization_counterexample :
    |vpNearA.west - vpNearB.west| < 1/1000 ∧
    vpNearA.south = vpNearB.south ∧ vpNearA.east = vpNearB.east ∧
    vpNearA.north = vpNearB.north ∧ vpNearA.zoom = vpNearB.zoom ∧
    pinsQueryKey "2024-01-01" vpNearA "en" 8 ≠ pinsQueryKey "2024-01-01" vpNearB "en" 8 := by
  refine ⟨by norm_num [vpNearA, vpNearB, abs_lt], rfl, rfl, rfl, rfl, ?_⟩
  intro h
  have hw : (pinsQueryKey "2024-01-01" vpNearA "en" 8).west
      = (pinsQueryKey "2024-01-01" vpNearB "en" 8).west := by rw [h]
  rw [show (pinsQueryKey "2024-01-01" vpNearA "en" 8).west = 0 by
        norm_num [pinsQueryKey, normalizeViewport, round2, jsRound, vpNearA],
      show (pinsQueryKey "2024-01-01" vpNearB "en" 8).west = 1/100 by
        norm_num [pinsQueryKey, normalizeViewport, round2, jsRound, vpNearB]] at hw
  norm_num at hw

/-- C3 (amended): two pin requests with identical date, language and max-pin
count whose viewports normalize to the same quantized viewport (every
bounding-box coordinate rounding to the same hundredth and the zoom to the
same tenth) derive equal query keys. -/
theorem quantization_amended (date : String) (v1 v2 : Viewport) (language : String)
    (maxPins : ℕ) (h : normalizeViewport v1 = normalizeViewport v2) :
    pinsQueryKey date v1 language maxPins = pinsQueryKey date v2 language maxPins := by
  unfold pinsQueryKey
  rw [h]

/-- C3 witness: two distinct viewports that quantize identically yield the
same key. -/
theorem quantization_amended_witness :
    normalizeViewport { west := 1/1000, south := 0, east := 1, north := 1, zoom := 2 }
      = normalizeViewport { west := 2/1000, south := 0, east := 1, north := 1, zoom := 2 } ∧
    pinsQueryKey "2024-01-01" { west := 1/1000, south := 0, east := 1, north := 1, zoom := 2 } "en" 8
      = pinsQueryKey "2024-01-01" { west := 2/1000, south := 0, east := 1, north := 1, zoom := 2 } "en" 8 := by
  have hn : normalizeViewport { west := 1/1000, south := 0, east := 1, north := 1, zoom := 2 }
      = normalizeViewport { west := 2/1000, south := 0, east := 1, north := 1, zoom := 2 } := by
    simp only [normalizeViewport, Viewport.mk.injEq]
    norm_num [round2, round1, jsRound]
  exact ⟨hn, quantization_amended "2024-01-01" _ _ "en" 8 hn⟩

/-! ## Pins request caching (hooks/useEvents.ts, usePins)

`usePins` hands the key above to React Query with
`staleTime: 1000 * 60 * 30` (30 minutes); the cache machinery itself lives
in the external React Query library (and, server side, in the Memory
component absent from src/), so its lookup behavior is modelled from the
spec. -/

/-- Response of the pins endpoint, from the `PinsResponse` interface. -/
structure PinsResponse where
  date : String
  pins : List Pin
  deriving DecidableEq, Repr

/-- The staleness window configured by `usePins`: `staleTime: 1000 * 60 * 30`
milliseconds, expressed here in seconds. -/
def pinsStaleTime : ℚ := 1800

/-- Outcome of one pins request: the response handed to the caller, the
cache state afterwards, and whether an underlying fetch was issued. -/
structure PinsRequestOutcome where
  response : PinsResponse
  cache : List (PinsQueryKey × ℚ × PinsResponse)
  fetched : Bool
  deriving Repr

/-- Modelled from the spec: the keyed result cache with a staleness window
(the React Query client configured by `usePins`, mirroring the Memory
cache contract, neither of which is under src/). A lookup under the query
key that finds an entry younger than the staleness window returns the
cached value and issues no fetch; otherwise the fetch runs and its result
is stored under the key at the current instant. -/
def processPinsRequest (cache : List (PinsQueryKey × ℚ × PinsResponse))
    (now : ℚ) (key : PinsQueryKey) (fetchResult : PinsResponse) :
    PinsRequestOutcome :=
  match cache.find? (fun e => e.1 == key) with
  | some e =>
    if now - e.2.1 < pinsStaleTime then
      { response := e.2.2, cache := cache, fetched := false }
    else
      { response := fetchResult, cache := (key, now, fetchResult) :: cache, fetched := true }
  | none =>
    { response := fetchResult, cache := (key, now, fetchResult) :: cache, fetched := true }

/-- C4: issuing the same pins request twice in succession within the
30-minute staleness window causes only one underlying fetch; the second
request is a cache hit under the identical query key and returns pins
identical to the first response, whatever the adapter would have produced
the second time. -/
theorem pins_request_second_is_cache_hit (date : String) (vp : Viewport)
    (language : String) (maxPins : ℕ) (r1 r2 : PinsResponse) (t1 t2 : ℚ)
    (h : t2 - t1 < pinsStaleTime) :
    (processPinsRequest [] t1 (pinsQueryKey date vp language maxPins) r1).fetched = true ∧
    (processPinsRequest [] t1 (pinsQueryKey date vp language maxPins) r1).response = r1 ∧
    (processPinsRequest
        (processPinsRequest [] t1 (pinsQueryKey date vp language maxPins) r1).cache
        t2 (pinsQueryKey date vp language maxPins) r2).fetched = false ∧
    (processPinsRequest
        (processPinsRequest [] t1 (pinsQueryKey date vp language maxPins) r1).cache
        t2 (pinsQueryKey date vp language maxPins) r2).response
      = (processPinsRequest [] t1 (pinsQueryKey date vp language maxPins) r1).response := by
  have hfirst : processPinsRequest [] t1 (pinsQueryKey date vp language maxPins) r1
      = { response := r1,
          cache := [(pinsQueryKey date vp language maxPins, t1, r1)],
          fetched := true } := by
    unfold processPinsRequest
    rfl
  refine ⟨by rw [hfirst], by rw [hfirst], ?_, ?_⟩ <;>
  · rw [hfirst]
    unfold processPinsRequest
    simp only [List.find?_cons, beq_self_eq_true, List.find?_nil]
    rw [if_pos h]

/-- C4 witness: the cache-hit theorem at a concrete request issued at
times 0 and 60 seconds. -/
theorem pins_request_second_is_cache_hit_witness :
    ((60 : ℚ) - 0 < pinsStaleTime) ∧
    (processPinsRequest
        (processPinsRequest [] 0 (pinsQueryKey "2024-01-01" vpNearA "en" 8)
          { date := "2024-01-01", pins := [examplePin] }).cache
        60 (pinsQueryKey "2024-01-01" vpNearA "en" 8)
        { date := "2024-01-01", pins := [] }).fetched = false := by
  have h : (60 : ℚ) - 0 < pinsStaleTime := by norm_num [pinsStaleTime]
  exact ⟨h, (pins_request_second_is_cache_hit "2024-01-01" vpNearA "en" 8
    { date := "2024-01-01", pins := [examplePin] }
    { date := "2024-01-01", pins := [] } 0 60 h).2.2.1⟩

/-! ## SSE stream consumer (hooks/useSSE.ts, useSSE)

The hook opens an `EventSource`, appends each `chunk`/`message` event to its
`data` state and forwards it to `onChunk`; on the `done` event it sets
`isStreaming` to false, calls `onDone` and closes the connection; on
`error` it sets `isStreaming` to false, calls `onError` and closes the
connection. A closed `EventSource` delivers no further events, so events
arriving after close are absorbed. -/

/-- An event delivered on the SSE connection: a text fragment (covering both
the custom `chunk` event type and default `message` events, which the hook
treats identically), the explicit `done` end-of-sequence marker, or a
connection error. -/
inductive SSEEvent where
  | chunk (s : String)
  | done
  | error
  deriving DecidableEq, Repr

/-- Consumer state of `useSSE`: accumulated `data`, the `isStreaming` flag,
whether the `EventSource` has been closed, and counts of `onDone` and
`onError` callback invocations. -/
structure SSEState where
  data : String
  isStreaming : Bool
  closed : Bool
  doneCount : ℕ
  errorCount : ℕ
  deriving DecidableEq, Repr

/-- State on connection open: `setIsStreaming(true); setData("")`. -/
def sseInit : SSEState :=
  { data := "", isStreaming := true, closed := false, doneCount := 0, errorCount := 0 }

/-- One event delivery. A closed connection delivers nothing; otherwise the
three handlers registered by `useSSE` run. -/
def sseStep (st : SSEState) (e : SSEEvent) : SSEState :=
  if st.closed then st
  else
    match e with
    | .chunk s => { st with data := st.data ++ s }
    | .done => { st with isStreaming := false, closed := true, doneCount := st.doneCount + 1 }
    | .error => { st with isStreaming := false, closed := true, errorCount := st.errorCount + 1 }

/-- Consumer state after a sequence of deliveries on one connection. -/
def sseRun (events : List SSEEvent) : SSEState :=
  events.foldl sseStep sseInit

lemma sseStep_closed (st : SSEState) (e : SSEEvent) (h : st.closed = true) :
    sseStep st e = st := by
  unfold sseStep
  rw [h]
  rfl

lemma sseRun_closed_absorb (st : SSEState) (events : List SSEEvent)
    (h : st.closed = true) : events.foldl sseStep st = st := by
  induction events with
  | nil => rfl
  | cons e rest ih => rw [List.foldl_cons, sseStep_closed st e h]; exact ih

/-- C6: once the `done` end-of-sequence marker is received on an open
connection, the consumer has invoked its completion callback exactly once
more, reports `isStreaming = false`, has closed the connection, keeps the
accumulated data unchanged, and no sequence of further events changes its
state (in particular no further fragment is appended). -/
theorem sse_done_terminates (pre post : List SSEEvent)
    (h : (sseRun pre).closed = false) :
    (sseRun (pre ++ [SSEEvent.done])).isStreaming = false ∧
    (sseRun (pre ++ [SSEEvent.done])).closed = true ∧
    (sseRun (pre ++ [SSEEvent.done])).doneCount = (sseRun pre).doneCount + 1 ∧
    (sseRun (pre ++ [SSEEvent.done])).data = (sseRun pre).data ∧
    sseRun (pre ++ [SSEEvent.done] ++ post) = sseRun (pre ++ [SSEEvent.done]) := by
  have hstep : sseRun (pre ++ [SSEEvent.done])
      = sseStep (sseRun pre) SSEEvent.done := by
    unfold sseRun
    rw [List.foldl_append]
    rfl
  have hdone : sseStep (sseRun pre) SSEEvent.done
      = { data := (sseRun pre).data, isStreaming := false, closed := true,
          doneCount := (sseRun pre).doneCount + 1,
          errorCount := (sseRun pre).errorCount } := by
    unfold sseStep
    rw [h]
    rfl
  refine ⟨?_, ?_, ?_, ?_, ?_⟩
  · rw [hstep, hdone]
  · rw [hstep, hdone]
  · rw [hstep, hdone]
  · rw [hstep, hdone]
  · unfold sseRun
    rw [List.foldl_append]
    exact sseRun_closed_absorb _ post (by
      show (sseRun (pre ++ [SSEEvent.done])).closed = true
      rw [hstep, hdone])

/-- C6 witness: the termination theorem on a concrete trace with one
fragment before `done` and one attempted fragment after it. -/
theorem sse_done_terminates_witness :
    (sseRun [SSEEvent.chunk "a"]).closed = false ∧
    sseRun ([SSEEvent.chunk "a"] ++ [SSEEvent.done] ++ [SSEEvent.chunk "b"])
      = sseRun ([SSEEvent.chunk "a"] ++ [SSEEvent.done]) := by
  have h : (sseRun [SSEEvent.chunk "a"]).closed = false := by decide
  exact ⟨h, (sse_done_terminates [SSEEvent.chunk "a"] [SSEEvent.chunk "b"] h).2.2.2.2⟩

/-! ## Geocoding utility (utils/geocoding.ts, geocodeLocation)

The whole body sits in a try block whose catch returns null. Inside the
try block: a non-OK HTTP response returns null, an empty (or null) result
list returns null, otherwise the results are sorted by descending
importance (missing importance defaulting to 0, via a stable comparator
sort) and the first result is turned into `{lat, lng, display_name}`, the
display name being the first three of the address components
place, neighbourhood, suburb, city, state, country when any are present
and the raw `display_name` otherwise. -/

/-- One raw Nominatim search result, with the fields `geocodeLocation`
reads: parsed coordinates, optional importance score, raw display name and
address component map. -/
structure NomResult where
  lat : ℚ
  lon : ℚ
  importance : Option ℚ
  display_name : String
  address : List (String × String)
  deriving DecidableEq, Repr

/-- Result type of `geocodeLocation`, from the `GeocodeResult` interface. -/
structure GeocodeResult where
  lat : ℚ
  lng : ℚ
  display_name : Option String
  deriving DecidableEq, Repr

/-- Outcome of the external interactions inside `geocodeLocation`: the fetch
may throw, the response may be non-OK, `response.json()` may throw, the
parsed body may be null, or it is a list of results. -/
inductive GeoEnv where
  | fetchThrows
  | respNotOk
  | jsonThrows
  | jsonNull
  | ok (results : List NomResult)
  deriving Repr

/-- `a.importance || 0`: missing importance defaults to 0. -/
def impOf (r : NomResult) : ℚ := r.importance.getD 0

/-- Stable insertion of one result into a list sorted by descending
importance: models one step of the stable comparator sort
`(a, b) => importanceB - importanceA`. -/
def insertByImportance (r : NomResult) : List NomResult → List NomResult
  | [] => [r]
  | x :: xs => if impOf x < impOf r then r :: x :: xs else x :: insertByImportance r xs

/-- Stable sort by descending importance, the effect of
`results.sort((a, b) => importanceB - importanceA)`. -/
def sortByImportance (results : List NomResult) : List NomResult :=
  results.foldr insertByImportance []

/-- The address keys scanned in order to build the display name. -/
def addressKeys : List String :=
  ["place", "neighbourhood", "suburb", "city", "state", "country"]

/-- The address components present among `addressKeys`, in key order. -/
def specificParts (address : List (String × String)) : List String :=
  addressKeys.filterMap (fun k => (address.find? (fun e => e.1 == k)).map (fun e => e.2))

/-- Build the `GeocodeResult` from the best raw result: the display name is
the first three specific address parts joined with a comma when any exist,
else the raw display name. -/
def buildGeocodeResult (r : NomResult) : GeocodeResult :=
  let parts := specificParts r.address
  { lat := r.lat, lng := r.lon,
    display_name := if parts.isEmpty then some r.display_name
      else some (String.intercalate ", " (parts.take 3)) }

/-- The try block of `geocodeLocation`: an error value models a thrown
exception escaping the block. -/
def geocodeTry : GeoEnv → Except String (Option GeocodeResult)
  | .fetchThrows => .error "fetch failed"
  | .respNotOk => .ok none
  | .jsonThrows => .error "json parse failed"
  | .jsonNull => .ok none
  | .ok results =>
    match results with
    | [] => .ok none
    | r0 :: rest =>
      match sortByImportance (r0 :: rest) with
      | [] => .ok none
      | best :: _ => .ok (some (buildGeocodeResult best))

/-- `geocodeLocation`: the try block wrapped in the catch handler, which
logs and returns null. -/
def geocodeLocation (env : GeoEnv) : Option GeocodeResult :=
  match geocodeTry env with
  | .ok v => v
  | .error _ => none

lemma insertByImportance_ne_nil (r : NomResult) (l : List NomResult) :
    insertByImportance r l ≠ [] := by
  cases l with
  | nil => simp [insertByImportance]
  | cons x xs =>
    unfold insertByImportance
    split <;> simp

/-- C7: for every outcome of the external calls, `geocodeLocation` returns
either null or a result carrying coordinates and a display name; it
returns null on a non-OK HTTP response, on an empty or null result list
and whenever the try block throws (so no exception reaches the caller);
and on a non-empty result list it returns a non-null result. -/
theorem geocodeLocation_total :
    (∀ env, geocodeLocation env = none ∨
      ∃ r, geocodeLocation env = some r) ∧
    geocodeLocation .respNotOk = none ∧
    geocodeLocation (.ok []) = none ∧
    geocodeLocation .jsonNull = none ∧
    geocodeLocation .fetchThrows = none ∧
    geocodeLocation .jsonThrows = none ∧
    (∀ env msg, geocodeTry env = .error msg → geocodeLocation env = none) ∧
    (∀ r0 rest, ∃ r, geocodeLocation (.ok (r0 :: rest)) = some r) := by
  refine ⟨?_, rfl, rfl, rfl, rfl, rfl, ?_, ?_⟩
  · intro env
    cases h : geocodeLocation env with
    | none => exact Or.inl rfl
    | some r => exact Or.inr ⟨r, rfl⟩
  · intro env msg h
    unfold geocodeLocation
    rw [h]
  · intro r0 rest
    cases h : sortByImportance (r0 :: rest) with
    | nil => exact absurd h (insertByImportance_ne_nil r0 (sortByImportance rest))
    | cons best others =>
      refine ⟨buildGeocodeResult best, ?_⟩
      simp only [geocodeLocation, geocodeTry, h]

/-- C7 witness: the totality theorem applied to the thrown-fetch outcome and
to a concrete single-result success. -/
theorem geocodeLocation_total_witness :
    geocodeLocation .fetchThrows = none ∧
    ∃ r, geocodeLocation
      (.ok [{ lat := 1, lon := 2, importance := some 1,
              display_name := "Paris", address := [] }]) = some r := by
  exact ⟨geocodeLocation_total.2.2.2.2.1,
    geocodeLocation_total.2.2.2.2.2.2.2
      { lat := 1, lon := 2, importance := some 1, display_name := "Paris", address := [] } []⟩

/-! ## Geocoding dispatch timing (utils/geocoding.ts)

`geocodeLocation` keeps no state between calls (the module has no
module-level mutable bindings) and issues its `fetch` to the Nominatim
endpoint synchronously upon invocation, with no delay, queue or throttle
in between. The request dispatched by a call made at instant `t` therefore
goes out at instant `t`. -/

/-- Instants at which the Nominatim requests of a sequence of
`geocodeLocation` calls are dispatched, as a function of the call instants:
each call fetches immediately, so the dispatch instants are the call
instants. -/
def geocodeRequestTimes (callTimes : List ℚ) : List ℚ := callTimes

/-- C8 failing input: two `geocodeLocation` calls half a second apart
dispatch their Nominatim requests half a second apart, which is less than
the one-second minimum spacing the claim requires. -/
theorem geocode_requests_not_spaced :
    geocodeRequestTimes [0, 1/2] = [0, 1/2] ∧ ((1 : ℚ)/2 - 0 < 1) := by
  constructor
  · rfl
  · norm_num

/-! ## Pin color scale (components/WorldMap.tsx, getPositivityColor)

The function clamps its input to [0, 1] and linearly interpolates: from
red `rgb(239, 68, 68)` at 0 to yellow `rgb(234, 179, 8)` at 0.5 on the
lower half, and from yellow to green `rgb(34, 197, 94)` at 1 on the upper
half, rounding each channel with `Math.round`. -/

/-- `Math.max(0, Math.min(1, x))`. -/
def clamp01 (q : ℚ) : ℚ := max 0 (min 1 q)

/-- The three rounded color channels computed by `getPositivityColor`
(the two `let` bindings of the source inlined). -/
def getPositivityColor (p : ℚ) : ℤ × ℤ × ℤ :=
  if clamp01 p ≤ 1/2 then
    (jsRound (239 + (234 - 239) * (clamp01 p * 2)),
      jsRound (68 + (179 - 68) * (clamp01 p * 2)),
      jsRound (68 + (8 - 68) * (clamp01 p * 2)))
  else
    (jsRound (234 + (34 - 234) * ((clamp01 p - 1/2) * 2)),
      jsRound (179 + (197 - 179) * ((clamp01 p - 1/2) * 2)),
      jsRound (8 + (94 - 8) * ((clamp01 p - 1/2) * 2)))

/-- The rgb string `getPositivityColor` returns, rendered from the
channels. -/
def getPositivityColorString (p : ℚ) : String :=
  "rgb(" ++ toString (getPositivityColor p).1 ++ ", "
    ++ toString (getPositivityColor p).2.1 ++ ", "
    ++ toString (getPositivityColor p).2.2 ++ ")"

lemma jsRound_nonneg (q : ℚ) (h : 0 ≤ q) : 0 ≤ jsRound q :=
  Int.le_floor.mpr (by push_cast; linarith)

lemma jsRound_le_255 (q : ℚ) (h : q ≤ 255) : jsRound q ≤ 255 := by
  have h2 : ⌊q + 1/2⌋ < (256 : ℤ) := Int.floor_lt.mpr (by push_cast; linarith)
  unfold jsRound
  omega

lemma jsRound_channel_bounds (q : ℚ) (h0 : 0 ≤ q) (h255 : q ≤ 255) :
    0 ≤ jsRound q ∧ jsRound q ≤ 255 :=
  ⟨jsRound_nonneg q h0, jsRound_le_255 q h255⟩

/-- C9: each rgb channel of `getPositivityColor` lies in [0, 255] for every
rational input; inputs at or below 0 give rgb(239, 68, 68), inputs at or
above 1 give rgb(34, 197, 94), and input 0.5 gives rgb(234, 179, 8). -/
theorem getPositivityColor_spec (p : ℚ) :
    (0 ≤ (getPositivityColor p).1 ∧ (getPositivityColor p).1 ≤ 255) ∧
    (0 ≤ (getPositivityColor p).2.1 ∧ (getPositivityColor p).2.1 ≤ 255) ∧
    (0 ≤ (getPositivityColor p).2.2 ∧ (getPositivityColor p).2.2 ≤ 255) ∧
    (p ≤ 0 → getPositivityColor p = (239, 68, 68)) ∧
    (1 ≤ p → getPositivityColor p = (34, 197, 94)) ∧
    getPositivityColor (1/2 : ℚ) = (234, 179, 8) ∧
    getPositivityColorString (1/2 : ℚ) = "rgb(234, 179, 8)" := by
  have h0 : 0 ≤ clamp01 p := le_max_left 0 _
  have h1 : clamp01 p ≤ 1 := max_le (by norm_num) (min_le_left 1 p)
  have hhalf : getPositivityColor (1/2 : ℚ) = (234, 179, 8) := by
    have hc : clamp01 (1/2 : ℚ) = 1/2 := by
      unfold clamp01
      rw [min_eq_right (by norm_num), max_eq_right (by norm_num)]
    unfold getPositivityColor
    rw [hc]
    norm_num [jsRound]
  have hbounds : (0 ≤ (getPositivityColor p).1 ∧ (getPositivityColor p).1 ≤ 255) ∧
      (0 ≤ (getPositivityColor p).2.1 ∧ (getPositivityColor p).2.1 ≤ 255) ∧
      (0 ≤ (getPositivityColor p).2.2 ∧ (getPositivityColor p).2.2 ≤ 255) := by
    unfold getPositivityColor
    by_cases hc : clamp01 p ≤ 1/2
    · rw [if_pos hc]
      refine ⟨?_, ?_, ?_⟩ <;>
        exact jsRound_channel_bounds _ (by linarith) (by linarith)
    · rw [if_neg hc]
      refine ⟨?_, ?_, ?_⟩ <;>
        exact jsRound_channel_bounds _ (by linarith) (by linarith)
  refine ⟨hbounds.1, hbounds.2.1, hbounds.2.2, ?_, ?_, hhalf, ?_⟩
  · intro hp
    have hc : clamp01 p = 0 := by
      unfold clamp01
      rw [min_eq_right (by linarith), max_eq_left hp]
    unfold getPositivityColor
    rw [hc]
    norm_num [jsRound]
  · intro hp
    have hc : clamp01 p = 1 := by
      unfold clamp01
      rw [min_eq_left hp, max_eq_right (by norm_num)]
    unfold getPositivityColor
    rw [hc]
    norm_num [jsRound]
  · unfold getPositivityColorString
    rw [hhalf]
    rfl

/-- C9 witness: the color theorem at the out-of-range input 2, which clamps
to green, together with the fixed yellow midpoint. -/
theorem getPositivityColor_spec_witness :
    ((1 : ℚ) ≤ 2 ∧ getPositivityColor (2 : ℚ) = (34, 197, 94)) ∧
    getPositivityColor (1/2 : ℚ) = (234, 179, 8) := by
  have h := getPositivityColor_spec (2 : ℚ)
  exact ⟨⟨by norm_num, h.2.2.2.2.1 (by norm_num)⟩, h.2.2.2.2.2.1⟩

/-! ## Date-range picker change handler (components/DatePicker.tsx)

`handleChange` receives a `DatesRangeValue` (a possibly null pair of
possibly null dates). If both ends are set it calls `onChange` with both
dates formatted as YYYY-MM-DD; if only the start is set it calls
`onChange` with the end equal to the start; otherwise it does not call
`onChange`. -/

/-- A calendar date as dayjs sees it. -/
structure CalDate where
  year : ℕ
  month : ℕ
  day : ℕ
  deriving DecidableEq, Repr

/-- Left-pad a number to two digits, as the MM and DD fields of the dayjs
format string YYYY-MM-DD do. -/
def pad2 (n : ℕ) : String :=
  if n < 10 then "0" ++ toString n else toString n

/-- Left-pad a year to four digits, as the YYYY field does. -/
def pad4 (n : ℕ) : String :=
  if n < 10 then "000" ++ toString n
  else if n < 100 then "00" ++ toString n
  else if n < 1000 then "0" ++ toString n
  else toString n

/-- `dayjs(d).format("YYYY-MM-DD")`. -/
def formatDate (d : CalDate) : String :=
  pad4 d.year ++ "-" ++ pad2 d.month ++ "-" ++ pad2 d.day

/-- The `handleChange` callback of `DatePicker`: `none` models "onChange is
not called", `some (s, e)` models a call `onChange(s, e)`. The outer
`Option` models a null `range`, the inner ones null `range[0]`/`range[1]`. -/
def handleChange (range : Option (Option CalDate × Option CalDate)) :
    Option (String × String) :=
  match range with
  | some (some s, some e) => some (formatDate s, formatDate e)
  | some (some s, none) => some (formatDate s, formatDate s)
  | _ => none

/-- C10: with both ends selected, `onChange` receives both dates formatted
as YYYY-MM-DD; with only the start selected, it receives the start date as
both ends; with neither selected (whether the range value is null or both
entries are null), `onChange` is not called. -/
theorem handleChange_spec (s e : CalDate) :
    handleChange (some (some s, some e)) = some (formatDate s, formatDate e) ∧
    handleChange (some (some s, none)) = some (formatDate s, formatDate s) ∧
    handleChange (some (none, none)) = none ∧
    handleChange none = none := by
  exact ⟨rfl, rfl, rfl, rfl⟩

/-! ## Sentence stream (hooks/useSentenceStream.ts)

`handleChunk` appends each incoming fragment to a buffer and repeatedly
extracts either the prefix up to and including the first sentence-ending
punctuation mark and the character after it (pushed to the queue when it
has non-whitespace content, which it always has), or a leading newline;
what remains stays in the buffer. `handleDone` pushes the leftover buffer
to the queue only when `buffer.trim()` is non-empty. The queue drains into
`displayedText` in order. Text is modelled as `List Char` and JavaScript
whitespace as the six ASCII whitespace characters. -/

/-- ASCII whitespace, the `\s` class and `trim` on the texts modelled. -/
def isWSChar (c : Char) : Bool :=
  c == ' ' || c == '\t' || c == '\n' || c == '\r' || c == '\x0b' || c == '\x0c'

/-- Truthiness of `s.trim()`: some character is not whitespace. -/
def hasNonWS (l : List Char) : Bool := l.any (fun c => !isWSChar c)

/-- The sentence-ending punctuation class `[。！？.!?]` of
`SENTENCE_END_PATTERN`. -/
def isSentEndChar (c : Char) : Bool :=
  c == '。' || c == '！' || c == '？' || c == '.' || c == '!' || c == '?'

/-- The lookahead `(?=\s|$|\n)` after the punctuation (the `\n` alternative
is contained in `\s`). -/
def lookaheadOk : List Char → Bool
  | [] => true
  | d :: _ => isWSChar d

/-- Index of the first sentence-ending punctuation mark whose lookahead
matches, as `remaining.match(SENTENCE_END_PATTERN)` reports it. -/
def findSentEnd : List Char → Option ℕ
  | [] => none
  | c :: rest =>
    if isSentEndChar c && lookaheadOk rest then some 0
    else (findSentEnd rest).map (· + 1)

/-- The `while (remaining.length > 0)` loop of `handleChunk`: extract
complete sentences (the prefix through the punctuation mark and the
character after it) or standalone leading newlines into the queue, leave
the rest as the new buffer. The fuel argument bounds the iteration count;
every iteration consumes at least one character, so fuel equal to the
length of the input runs the loop to its natural exit. -/
def splitLoopF : ℕ → List Char → List (List Char) × List Char
  | 0, l => ([], l)
  | fuel + 1, l =>
    match findSentEnd l with
    | some i =>
      if hasNonWS (l.take (i + 2)) then
        (l.take (i + 2) :: (splitLoopF fuel (l.drop (i + 2))).1,
          (splitLoopF fuel (l.drop (i + 2))).2)
      else
        ((splitLoopF fuel (l.drop (i + 2))).1, (splitLoopF fuel (l.drop (i + 2))).2)
    | none =>
      match l with
      | [] => ([], [])
      | c :: rest =>
        if c = '\n' then ([c] :: (splitLoopF fuel rest).1, (splitLoopF fuel rest).2)
        else ([], c :: rest)

/-- Run the sentence-splitting loop on a buffer. -/
def splitBuffer (l : List Char) : List (List Char) × List Char :=
  splitLoopF l.length l

/-- Consumer state: the pending buffer and the sentences queued so far (the
queue drains into `displayedText` in order, so the queued list read in
order is the displayed text). -/
structure StreamState where
  buffer : List Char
  queued : List (List Char)
  deriving DecidableEq, Repr

/-- Initial state: empty buffer, nothing displayed. -/
def streamInit : StreamState := { buffer := [], queued := [] }

/-- The `handleChunk` callback: append the fragment to the buffer and run
the splitting loop. -/
def handleChunk (st : StreamState) (chunk : List Char) : StreamState :=
  { buffer := (splitBuffer (st.buffer ++ chunk)).2,
    queued := st.queued ++ (splitBuffer (st.buffer ++ chunk)).1 }

/-- The `handleDone` callback: flush the leftover buffer only when its
trimmed content is non-empty. -/
def handleDone (st : StreamState) : StreamState :=
  if hasNonWS st.buffer then { buffer := [], queued := st.queued ++ [st.buffer] }
  else st

/-- State after delivering all fragments and the done signal. -/
def runSentenceStream (frags : List (List Char)) : StreamState :=
  handleDone (frags.foldl handleChunk streamInit)

/-- The final displayed text once the queue has drained after completion. -/
def displayedText (frags : List (List Char)) : List Char :=
  (runSentenceStream frags).queued.flatten

lemma sentEnd_not_ws (c : Char) (h : isSentEndChar c = true) : isWSChar c = false := by
  unfold isSentEndChar at h
  simp only [Bool.or_eq_true, beq_iff_eq] at h
  rcases h with ((((h | h) | h) | h) | h) | h <;> subst h <;> decide

lemma findSentEnd_hasNonWS : ∀ (l : List Char) (i : ℕ), findSentEnd l = some i →
    hasNonWS (l.take (i + 2)) = true := by
  intro l
  induction l with
  | nil => intro i h; simp [findSentEnd] at h
  | cons c rest ih =>
    intro i h
    unfold findSentEnd at h
    split at h
    · next hcond =>
      injection h with h0
      subst h0
      have hend : isSentEndChar c = true := by
        cases hE : isSentEndChar c
        · rw [hE] at hcond; simp at hcond
        · rfl
      rw [show (c :: rest).take (0 + 2) = c :: rest.take 1 from rfl]
      simp [hasNonWS, sentEnd_not_ws c hend]
    · next hcond =>
      obtain ⟨j, hj, hji⟩ := Option.map_eq_some'.mp h
      subst hji
      have hih := ih j hj
      rw [show (c :: rest).take (j + 1 + 2) = c :: rest.take (j + 2) from rfl]
      simp only [hasNonWS, List.any_cons, Bool.or_eq_true] at hih ⊢
      exact Or.inr hih

lemma splitLoopF_flatten : ∀ (fuel : ℕ) (l : List Char),
    (splitLoopF fuel l).1.flatten ++ (splitLoopF fuel l).2 = l := by
  intro fuel
  induction fuel with
  | zero => intro l; simp [splitLoopF]
  | succ fuel ih =>
    intro l
    cases hf : findSentEnd l with
    | some i =>
      simp only [splitLoopF, hf, findSentEnd_hasNonWS l i hf, if_true,
        List.flatten_cons, List.append_assoc]
      rw [ih (l.drop (i + 2)), List.take_append_drop]
    | none =>
      cases l with
      | nil => simp [splitLoopF, hf]
      | cons c rest =>
        by_cases hc : c = '\n'
        · simp only [splitLoopF, hf, if_pos hc, List.flatten_cons,
            List.singleton_append, List.cons_append]
          rw [List.nil_append, ih rest]
        · simp [splitLoopF, hf, if_neg hc]

lemma handleChunk_content (st : StreamState) (chunk : List Char) :
    (handleChunk st chunk).queued.flatten ++ (handleChunk st chunk).buffer
      = st.queued.flatten ++ st.buffer ++ chunk := by
  unfold handleChunk
  simp only [List.flatten_append, List.append_assoc]
  rw [show (splitBuffer (st.buffer ++ chunk)).1.flatten ++ (splitBuffer (st.buffer ++ chunk)).2
      = st.buffer ++ chunk from splitLoopF_flatten _ _]

lemma foldl_handleChunk_content : ∀ (frags : List (List Char)) (st : StreamState),
    (frags.foldl handleChunk st).queued.flatten ++ (frags.foldl handleChunk st).buffer
      = st.queued.flatten ++ st.buffer ++ frags.flatten := by
  intro frags
  induction frags with
  | nil => intro st; simp
  | cons chunk rest ih =>
    intro st
    rw [List.foldl_cons, ih (handleChunk st chunk), handleChunk_content]
    simp [List.append_assoc]

/-- C5 (amended): the consumer queues the delivered content in arrival
order, and once the queue drains after the done signal the final displayed
text equals the concatenation of all delivered fragments, provided the
leftover buffer at completion is empty or still contains a non-whitespace
character (a whitespace-only leftover is dropped by the completion
flush). -/
theorem sentenceStream_final_text (frags : List (List Char))
    (h : (frags.foldl handleChunk streamInit).buffer = [] ∨
      hasNonWS ((frags.foldl handleChunk streamInit).buffer) = true) :
    displayedText frags = frags.flatten := by
  have hcontent := foldl_handleChunk_content frags streamInit
  rw [show streamInit.queued.flatten ++ streamInit.buffer ++ frags.flatten
      = frags.flatten from by simp [streamInit]] at hcontent
  unfold displayedText runSentenceStream handleDone
  rcases h with h | h
  · rw [h] at hcontent
    rw [h]
    simp only [hasNonWS, List.any_nil]
    simpa using hcontent
  · rw [if_pos h]
    simp only [List.flatten_append, List.flatten_cons, List.flatten_nil, List.append_nil]
    exact hcontent

/-- C5 witness: the stream theorem on the fragments "Hi. " and "Bye."
(a flushed complete sentence plus a non-whitespace leftover). -/
theorem sentenceStream_final_text_witness :
    hasNonWS (([['H', 'i', '.', ' '], ['B', 'y', 'e']].foldl handleChunk streamInit).buffer)
      = true ∧
    displayedText [['H', 'i', '.', ' '], ['B', 'y', 'e']]
      = ['H', 'i', '.', ' ', 'B', 'y', 'e'] := by
  have h : hasNonWS (([['H', 'i', '.', ' '], ['B', 'y', 'e']].foldl handleChunk
      streamInit).buffer) = true := by rfl
  refine ⟨h, ?_⟩
  rw [sentenceStream_final_text _ (Or.inr h)]
  rfl

/-- C5 counterexample: a single fragment consisting of one space is dropped
by the completion flush, so the final displayed text is empty rather than
the concatenation of the delivered fragments. -/
theorem sentenceStream_counterexample :
    displayedText [[' ']] = [] ∧ ([[' ']] : List (List Char)).flatten = [' '] := by
  exact ⟨rfl, rfl⟩

end Atlantis
